import Mathlib

/-!
Verification of the GPG trust reconciler (`util/db/gpgkeys.go`) and the
repository registry server (`server/repository`) of this repository, as a
shallow embedding in Lean 4.

External collaborators (the gpg binary, the persistent configuration store,
the RBAC enforcer, the git connectivity probe) are modelled as explicit
oracle parameters (`PgpEnv`, `GpgEnv`, `RepoEnv`) and an explicit in-memory
state, following the spec's description of those interfaces; everything the
repository's own code decides is translated line by line from the source.
-/

namespace ArgoCD

/-! ## GPG key data model (`util/db/gpgkeys.go`)

The keyring (external gpg state) is a list of installed keys; each entry
carries its key ID and whether a corresponding secret (private) key is
installed. Key IDs in a real gpg keyring are unique, which theorems state as
a `Nodup` hypothesis where needed. -/

structure KeyEntry where
  keyID : String
  isSecret : Bool
deriving DecidableEq, Repr

abbrev Keyring := List KeyEntry

/-- Oracle for the external gpg validation helpers used by
`ListConfiguredGPGPublicKeys`:
`keyIDfn` models `gpg.KeyID` (returns `""` when the argument is not a valid
key ID) and `validateOutcome` models `gpg.ValidatePGPKeys` applied to the
key material written to a temporary file (an `error` also covers the
temp-file failures of `validatePGPKey`). -/
structure PgpEnv where
  keyIDfn : String → String
  validateOutcome : String → Except String (List String)

/-- Oracle for the external gpg mutation commands used by
`SynchronizeGPGPublicKeys`: `importOutcome keyData` is the list of key IDs
that `gpg.ImportPGPKeysFromString` reports on success (`error` on failure),
and `deleteOutcome keyID` is `none` when `gpg.DeletePGPKey` succeeds. -/
structure GpgEnv where
  importOutcome : String → Except String (List String)
  deleteOutcome : String → Option String

/-- `validatePGPKey` (gpgkeys.go:20-44): validate a single key's material and
return the parsed key ID; the config entry must contain exactly one key. -/
def validatePGPKey (penv : PgpEnv) (keyData : String) : Except String String :=
  match penv.validateOutcome keyData with
  | .error e => .error e
  | .ok parsed =>
    match parsed with
    | [k] => .ok k
    | _ => .error "More than one key found in input data"

/-- `ListConfiguredGPGPublicKeys` (gpgkeys.go:47-75): walk the ConfigMap
entries `(declared key ID, key material)`; reject the whole call if an entry
has an invalid key ID, fails validation, or validates to a key ID different
from the declared one; otherwise map each parsed key ID to its material. -/
def listConfiguredGPGPublicKeys (penv : PgpEnv) :
    List (String × String) → Except String (List (String × String))
  | [] => .ok []
  | (k, p) :: rest =>
    if penv.keyIDfn k ≠ "" then
      match validatePGPKey penv p with
      | .error e =>
        .error ("Could not parse GPG key for entry " ++ penv.keyIDfn k ++ ": " ++ e)
      | .ok parsedKeyID =>
        if penv.keyIDfn k ≠ parsedKeyID then
          .error ("Key parsed for entry with key ID " ++ penv.keyIDfn k ++
            " had different key ID " ++ parsedKeyID)
        else
          match listConfiguredGPGPublicKeys penv rest with
          | .error e => .error e
          | .ok r => .ok ((parsedKeyID, p) :: r)
    else
      .error ("Found entry with key " ++ k ++
        " in ConfigMap, but this is not a valid PGP key ID")

/-- A configured entry is accepted by `ListConfiguredGPGPublicKeys` iff its
declared key is a valid key ID and the validator parses its material to
exactly that single key ID. -/
def validEntry (penv : PgpEnv) (p : String × String) : Prop :=
  penv.keyIDfn p.1 ≠ "" ∧ penv.validateOutcome p.2 = .ok [penv.keyIDfn p.1]

/-- `gpg.IsSecretKey` (external): look up whether the installed key with the
given ID has a secret part; errors when the key is not installed. -/
def isSecretKey (kr : Keyring) (kid : String) : Except String Bool :=
  match kr.find? (fun e => e.keyID == kid) with
  | some e => .ok e.isSecret
  | none => .error ("key " ++ kid ++ " not in keyring")

/-- `ListInstalledGPGPublicKeys` (gpgkeys.go:78-95): list installed keys and
keep exactly those for which `IsSecretKey` answers `false` (within the model
the membership lookup of an installed key never errors, so the loop's
error propagation is vacuous). -/
def listInstalledGPGPublicKeys (kr : Keyring) : List String :=
  (kr.filter (fun e =>
    match isSecretKey kr e.keyID with
    | .ok false => true
    | _ => false)).map (·.keyID)

/-- Whether the keyring holds an entry (public or secret) with this ID. -/
def hasEntry (kr : Keyring) (kid : String) : Bool :=
  kr.any (fun e => e.keyID == kid)

/-- Effect of a successful gpg import of one public key: a key already
present (by ID) is left in place, a new one is appended as a public
(non-secret) entry. -/
def addPublicKey (kr : Keyring) (kid : String) : Keyring :=
  if hasEntry kr kid then kr else kr ++ [⟨kid, false⟩]

/-- Effect of a successful `gpg.DeletePGPKey`: the entry with the given ID is
removed from the keyring. -/
def removeKey (kr : Keyring) (kid : String) : Keyring :=
  kr.filter (fun e => e.keyID ≠ kid)

/-- First loop of `SynchronizeGPGPublicKeys` (gpgkeys.go:116-128): for every
configured key absent from the installed (non-secret) set, attempt an
import; a failed import is logged and skipped. Returns the new keyring and
the list of key IDs for which an import was attempted. -/
def importMissingKeys (env : GpgEnv) (installed : List String) :
    List (String × String) → Keyring → Keyring × List String
  | [], kr => (kr, [])
  | (kid, keyData) :: rest, kr =>
    if installed.contains kid then
      importMissingKeys env installed rest kr
    else
      let kr' :=
        match env.importOutcome keyData with
        | .error _ => kr
        | .ok kids => kids.foldl addPublicKey kr
      let out := importMissingKeys env installed rest kr'
      (out.1, kid :: out.2)

/-- Second loop of `SynchronizeGPGPublicKeys` (gpgkeys.go:134-146): for every
installed (non-secret) key absent from the configuration, double-check via
`IsSecretKey` that it is not a private key, then call delete; a failed
delete (and a failed secret-status check) is logged and skipped. Returns the
new keyring and the list of key IDs on which `DeletePGPKey` was called. -/
def deleteExtraneousKeys (env : GpgEnv) (configuredIDs : List String) :
    List String → Keyring → Keyring × List String
  | [], kr => (kr, [])
  | kid :: rest, kr =>
    if configuredIDs.contains kid then
      deleteExtraneousKeys env configuredIDs rest kr
    else
      match isSecretKey kr kid with
      | .ok false =>
        let kr' :=
          match env.deleteOutcome kid with
          | none => removeKey kr kid
          | some _ => kr
        let out := deleteExtraneousKeys env configuredIDs rest kr'
        (out.1, kid :: out.2)
      | _ => deleteExtraneousKeys env configuredIDs rest kr

/-- The diffing core of `SynchronizeGPGPublicKeys` (gpgkeys.go:105-148), after
the lock has been acquired: load both key sets, import the missing keys,
delete the extraneous ones. The installed set is computed once, before any
mutation, exactly as in the source. Returns the resulting keyring, the
attempted imports and the attempted deletes. -/
def syncGPGKeys (env : GpgEnv) (configured : List (String × String)) (kr : Keyring) :
    Keyring × List String × List String :=
  let installed := listInstalledGPGPublicKeys kr
  let step1 := importMissingKeys env installed configured kr
  let step2 := deleteExtraneousKeys env (configured.map Prod.fst) installed step1.1
  (step2.1, step1.2, step2.2)

/-- `SynchronizeGPGPublicKeys` (gpgkeys.go:98-149). The process-wide
semaphore is threaded explicitly: `locked` says whether another caller holds
it at entry; the second component of the result is the lock state at exit
(`defer syncSemaphore.Release(1)` frees it on every exit path of a call that
acquired it). On success the result carries the attempted import and delete
lists (the source logs them; the spec's design notes ask for them as data). -/
def synchronizeGPGPublicKeys (env : GpgEnv) (penv : PgpEnv)
    (cm : List (String × String)) (locked : Bool) (kr : Keyring) :
    Except String (List String × List String) × Bool × Keyring :=
  if locked then
    (.error "GnuPG database is locked, try again.", locked, kr)
  else
    match listConfiguredGPGPublicKeys penv cm with
    | .error e => (.error e, false, kr)
    | .ok configured =>
      let out := syncGPGKeys env configured kr
      (.ok (out.2.1, out.2.2), false, out.1)

/-! ## Two concurrent `SynchronizeGPGPublicKeys` calls

`syncSemaphore` (gpgkeys.go:17) is a process-wide weighted semaphore of
capacity 1. A call consists of the atomic steps `TryAcquire` (gpgkeys.go:100,
rejecting immediately when the slot is taken), the body (which performs the
keyring mutations), and the deferred `Release` (gpgkeys.go:103). The
interleaving of two concurrent calls is modelled as a step relation; the
body-plus-release is one step because the other process cannot observe an
intermediate point through the semaphore. -/

inductive SyncPC where
  | start | inBody | finished | rejected
deriving DecidableEq, Repr

structure SyncSysState where
  lock : Bool
  pc1 : SyncPC
  pc2 : SyncPC
  mutated1 : Bool
  mutated2 : Bool
deriving DecidableEq, Repr

def syncInit : SyncSysState :=
  { lock := false, pc1 := .start, pc2 := .start, mutated1 := false, mutated2 := false }

inductive SyncStep : SyncSysState → SyncSysState → Prop where
  | acq1ok (s : SyncSysState) : s.pc1 = .start → s.lock = false →
      SyncStep s { s with lock := true, pc1 := .inBody }
  | acq1busy (s : SyncSysState) : s.pc1 = .start → s.lock = true →
      SyncStep s { s with pc1 := .rejected }
  | run1 (s : SyncSysState) : s.pc1 = .inBody →
      SyncStep s { s with lock := false, pc1 := .finished, mutated1 := true }
  | acq2ok (s : SyncSysState) : s.pc2 = .start → s.lock = false →
      SyncStep s { s with lock := true, pc2 := .inBody }
  | acq2busy (s : SyncSysState) : s.pc2 = .start → s.lock = true →
      SyncStep s { s with pc2 := .rejected }
  | run2 (s : SyncSysState) : s.pc2 = .inBody →
      SyncStep s { s with lock := false, pc2 := .finished, mutated2 := true }

def SyncReachable (s : SyncSysState) : Prop :=
  Relation.ReflTransGen SyncStep syncInit s

/-- Inductive invariant of the two-caller system: the semaphore is taken
exactly while some caller is inside the body, at most one caller is inside
the body at a time, and a caller that has not finished its body has mutated
nothing (so a rejected caller never mutates). -/
def syncInv (s : SyncSysState) : Prop :=
  (s.lock = true ↔ (s.pc1 = .inBody ∨ s.pc2 = .inBody)) ∧
  ¬(s.pc1 = .inBody ∧ s.pc2 = .inBody) ∧
  (s.pc1 ≠ .finished → s.mutated1 = false) ∧
  (s.pc2 ≠ .finished → s.mutated2 = false)

theorem syncInv_init : syncInv syncInit := by
  simp [syncInv, syncInit]

theorem syncInv_step {s t : SyncSysState} (hinv : syncInv s) (hstep : SyncStep s t) :
    syncInv t := by
  obtain ⟨hlock, hmux, hm1, hm2⟩ := hinv
  cases hstep with
  | acq1ok h1 h2 =>
    refine ⟨by simp, ?_, fun _ => hm1 (by simp [h1]), hm2⟩
    rintro ⟨-, hb2⟩
    exact absurd (hlock.mpr (Or.inr hb2)) (by simp [h2])
  | acq1busy h1 h2 =>
    refine ⟨⟨fun _ => ?_, fun _ => h2⟩, ?_, fun _ => hm1 (by simp [h1]), hm2⟩
    · rcases hlock.mp h2 with hb1 | hb2
      · rw [h1] at hb1
        exact absurd hb1 (by simp)
      · exact Or.inr hb2
    · rintro ⟨hb1, -⟩
      exact absurd hb1 (by simp)
  | run1 h1 =>
    have hb2 : ¬s.pc2 = SyncPC.inBody := fun hc => hmux ⟨h1, hc⟩
    exact ⟨by simp [hb2], by simp, fun h => absurd rfl h, hm2⟩
  | acq2ok h1 h2 =>
    refine ⟨by simp, ?_, hm1, fun _ => hm2 (by simp [h1])⟩
    rintro ⟨hb1, -⟩
    exact absurd (hlock.mpr (Or.inl hb1)) (by simp [h2])
  | acq2busy h1 h2 =>
    refine ⟨⟨fun _ => ?_, fun _ => h2⟩, ?_, hm1, fun _ => hm2 (by simp [h1])⟩
    · rcases hlock.mp h2 with hb1 | hb2
      · exact Or.inl hb1
      · rw [h1] at hb2
        exact absurd hb2 (by simp)
    · rintro ⟨-, hb2⟩
      exact absurd hb2 (by simp)
  | run2 h1 =>
    have hb1 : ¬s.pc1 = SyncPC.inBody := fun hc => hmux ⟨hc, h1⟩
    exact ⟨by simp [hb1], by simp, hm1, fun h => absurd rfl h⟩

theorem syncInv_reachable {s : SyncSysState} (h : SyncReachable s) : syncInv s := by
  induction h with
  | refl => exact syncInv_init
  | tail _ hstep ih => exact syncInv_step ih hstep

/-! ## Basic keyring lemmas -/

theorem hasEntry_iff {kr : Keyring} {kid : String} :
    hasEntry kr kid = true ↔ ∃ e ∈ kr, e.keyID = kid := by
  simp [hasEntry, List.any_eq_true]

theorem hasEntry_append {kr kr' : Keyring} {kid : String} :
    hasEntry (kr ++ kr') kid = (hasEntry kr kid || hasEntry kr' kid) := by
  simp [hasEntry]

theorem find?_keyID_of_mem {kr : Keyring} {e : KeyEntry}
    (hnd : (kr.map (·.keyID)).Nodup) (he : e ∈ kr) :
    kr.find? (fun x => x.keyID == e.keyID) = some e := by
  induction kr with
  | nil => cases he
  | cons a as ih =>
    rcases List.mem_cons.mp he with rfl | hmem
    · simp [List.find?]
    · have hne : ¬(a.keyID = e.keyID) := by
        intro hEq
        have hm : e.keyID ∈ as.map (·.keyID) := List.mem_map_of_mem (·.keyID) hmem
        rw [← hEq] at hm
        exact (List.nodup_cons.mp hnd).1 hm
      rw [List.find?]
      have hb : (a.keyID == e.keyID) = false := by
        simpa using hne
      rw [hb]
      exact ih (List.nodup_cons.mp hnd).2 hmem

theorem keyID_inj_of_nodup {kr : Keyring} (hnd : (kr.map (·.keyID)).Nodup)
    {e1 e2 : KeyEntry} (h1 : e1 ∈ kr) (h2 : e2 ∈ kr) (hid : e1.keyID = e2.keyID) :
    e1 = e2 := by
  have hf1 := find?_keyID_of_mem hnd h1
  have hf2 := find?_keyID_of_mem hnd h2
  rw [hid] at hf1
  rw [hf1] at hf2
  exact Option.some.inj hf2

theorem isSecretKey_of_mem {kr : Keyring} {e : KeyEntry}
    (hnd : (kr.map (·.keyID)).Nodup) (he : e ∈ kr) :
    isSecretKey kr e.keyID = .ok e.isSecret := by
  rw [isSecretKey, find?_keyID_of_mem hnd he]

theorem mem_listInstalled_iff {kr : Keyring} {x : String}
    (hnd : (kr.map (·.keyID)).Nodup) :
    x ∈ listInstalledGPGPublicKeys kr ↔ ∃ e ∈ kr, e.keyID = x ∧ e.isSecret = false := by
  unfold listInstalledGPGPublicKeys
  rw [List.mem_map]
  constructor
  · rintro ⟨e, hmemf, rfl⟩
    have hmem := List.mem_of_mem_filter hmemf
    have hpred := List.of_mem_filter hmemf
    rw [isSecretKey_of_mem hnd hmem] at hpred
    refine ⟨e, hmem, rfl, ?_⟩
    cases hsec : e.isSecret
    · rfl
    · rw [hsec] at hpred
      cases hpred
  · rintro ⟨e, hmem, rfl, hsec⟩
    refine ⟨e, List.mem_filter.mpr ⟨hmem, ?_⟩, rfl⟩
    rw [isSecretKey_of_mem hnd hmem, hsec]

theorem secret_notMem_listInstalled {kr : Keyring} {kid : String}
    (hnd : (kr.map (·.keyID)).Nodup) (hsec : (⟨kid, true⟩ : KeyEntry) ∈ kr) :
    kid ∉ listInstalledGPGPublicKeys kr := by
  intro hmem
  obtain ⟨e, hmem', hid, hpub⟩ := (mem_listInstalled_iff hnd).mp hmem
  have := keyID_inj_of_nodup hnd hmem' hsec hid
  rw [this] at hpub
  cases hpub

/-! ## Specifications of the two reconciliation loops -/

/-- When every attempted import succeeds and reports exactly the declared
key ID, the import loop appends one public entry per configured key that was
not already installed, and attempts exactly those imports. -/
theorem importMissingKeys_spec (env : GpgEnv) (installed : List String) :
    ∀ (cfg : List (String × String)) (kr : Keyring),
      (cfg.map Prod.fst).Nodup →
      (∀ p ∈ cfg, p.1 ∉ installed → env.importOutcome p.2 = .ok [p.1]) →
      (∀ p ∈ cfg, p.1 ∉ installed → hasEntry kr p.1 = false) →
      importMissingKeys env installed cfg kr =
        (kr ++ (cfg.filter (fun p => !installed.contains p.1)).map
            (fun p => ⟨p.1, false⟩),
          (cfg.filter (fun p => !installed.contains p.1)).map Prod.fst) := by
  intro cfg
  induction cfg with
  | nil =>
    intro kr _ _ _
    simp [importMissingKeys]
  | cons hd rest ih =>
    intro kr hnd himp hfresh
    obtain ⟨kid, kd⟩ := hd
    simp only [importMissingKeys]
    by_cases hin : installed.contains kid = true
    · have hmemk : kid ∈ installed := by simpa using hin
      rw [if_pos hin,
        ih kr (by simpa using hnd.of_cons)
          (fun p hp => himp p (List.mem_cons_of_mem _ hp))
          (fun p hp => hfresh p (List.mem_cons_of_mem _ hp)),
        List.filter_cons_of_neg (by simp [hmemk])]
    · have hin' : installed.contains kid = false := by rwa [Bool.not_eq_true] at hin
      rw [if_neg hin]
      have hmem : kid ∉ installed := by simpa using hin'
      have hio : env.importOutcome kd = .ok [kid] :=
        himp (kid, kd) (List.mem_cons_self _ _) hmem
      have hfr : hasEntry kr kid = false :=
        hfresh (kid, kd) (List.mem_cons_self _ _) hmem
      have hadd : addPublicKey kr kid = kr ++ [(⟨kid, false⟩ : KeyEntry)] := by
        rw [addPublicKey, hfr]
        simp
      have hfresh' : ∀ p ∈ rest, p.1 ∉ installed →
          hasEntry (kr ++ [(⟨kid, false⟩ : KeyEntry)]) p.1 = false := by
        intro p hp hpmem
        rw [hasEntry_append, hfresh p (List.mem_cons_of_mem _ hp) hpmem]
        have hne : ¬(kid = p.1) := by
          intro hEq
          have hm : p.1 ∈ rest.map Prod.fst := List.mem_map_of_mem Prod.fst hp
          rw [← hEq] at hm
          exact (List.nodup_cons.mp (by simpa using hnd)).1 hm
        simp [hasEntry, hne]
      have hrec := ih (kr ++ [(⟨kid, false⟩ : KeyEntry)]) (by simpa using hnd.of_cons)
        (fun p hp => himp p (List.mem_cons_of_mem _ hp)) hfresh'
      simp only [hio, List.foldl_cons, List.foldl_nil, hadd]
      rw [hrec, List.filter_cons_of_pos (by simp [hmem])]
      simp [List.append_assoc]

/-- When every installed-but-unconfigured key has a unique public entry and
every attempted delete succeeds, the delete loop removes exactly the
installed keys missing from the configuration, and attempts exactly those
deletes. -/
theorem deleteExtraneousKeys_spec (env : GpgEnv) (cfgIDs : List String) :
    ∀ (inst : List String) (kr : Keyring),
      inst.Nodup →
      (kr.map (·.keyID)).Nodup →
      (∀ kid ∈ inst, kid ∉ cfgIDs → env.deleteOutcome kid = none) →
      (∀ kid ∈ inst, kid ∉ cfgIDs → (⟨kid, false⟩ : KeyEntry) ∈ kr) →
      deleteExtraneousKeys env cfgIDs inst kr =
        (kr.filter (fun e =>
            !(inst.filter (fun kid => !cfgIDs.contains kid)).contains e.keyID),
          inst.filter (fun kid => !cfgIDs.contains kid)) := by
  intro inst
  induction inst with
  | nil =>
    intro kr _ _ _ _
    simp [deleteExtraneousKeys]
  | cons kid rest ih =>
    intro kr hndi hndk hdel hpub
    simp only [deleteExtraneousKeys]
    by_cases hin : cfgIDs.contains kid = true
    · have hmemk : kid ∈ cfgIDs := by simpa using hin
      rw [if_pos hin,
        ih kr hndi.of_cons hndk
          (fun q hq => hdel q (List.mem_cons_of_mem _ hq))
          (fun q hq => hpub q (List.mem_cons_of_mem _ hq)),
        List.filter_cons_of_neg (by simp [hmemk])]
    · have hin' : cfgIDs.contains kid = false := by rwa [Bool.not_eq_true] at hin
      rw [if_neg hin]
      have hmem : kid ∉ cfgIDs := by simpa using hin'
      have hpubk : (⟨kid, false⟩ : KeyEntry) ∈ kr :=
        hpub kid (List.mem_cons_self _ _) hmem
      have hsk : isSecretKey kr kid = .ok false := isSecretKey_of_mem hndk hpubk
      have hdk : env.deleteOutcome kid = none :=
        hdel kid (List.mem_cons_self _ _) hmem
      have hsub : List.Sublist (removeKey kr kid) kr := by
        rw [removeKey]
        exact List.filter_sublist kr
      have hndk' : ((removeKey kr kid).map (·.keyID)).Nodup :=
        (hsub.map (·.keyID)).nodup hndk
      have hpub' : ∀ q ∈ rest, q ∉ cfgIDs →
          (⟨q, false⟩ : KeyEntry) ∈ removeKey kr kid := by
        intro q hq hqmem
        have hne : ¬(q = kid) := by
          intro hEq
          rw [hEq] at hq
          exact (List.nodup_cons.mp hndi).1 hq
        rw [removeKey, List.mem_filter]
        exact ⟨hpub q (List.mem_cons_of_mem _ hq) hqmem, by simpa using hne⟩
      simp only [hsk, hdk]
      rw [ih (removeKey kr kid) hndi.of_cons hndk'
          (fun q hq => hdel q (List.mem_cons_of_mem _ hq)) hpub']
      rw [Prod.mk.injEq]
      constructor
      · rw [List.filter_cons_of_pos (by simp [hmem]),
          removeKey, List.filter_filter]
        refine List.filter_congr ?_
        intro e _
        by_cases hek : e.keyID = kid
        · simp [hek, List.contains_cons]
        · simp [hek, List.contains_cons]
      · rw [List.filter_cons_of_pos (by simp [hmem])]

/-- The installed (non-secret) listing of a keyring with unique IDs has
unique IDs itself. -/
theorem listInstalled_nodup {kr : Keyring} (hnd : (kr.map (·.keyID)).Nodup) :
    (listInstalledGPGPublicKeys kr).Nodup := by
  unfold listInstalledGPGPublicKeys
  exact ((List.filter_sublist kr).map (·.keyID)).nodup hnd

/-- Every key ID the delete loop calls delete on comes from the installed
list it was given. -/
theorem deleteExtraneousKeys_subset (env : GpgEnv) (cfgIDs : List String) :
    ∀ (inst : List String) (kr : Keyring) (kid : String),
      kid ∈ (deleteExtraneousKeys env cfgIDs inst kr).2 → kid ∈ inst := by
  intro inst
  induction inst with
  | nil =>
    intro kr kid h
    simp [deleteExtraneousKeys] at h
  | cons a rest ih =>
    intro kr kid h
    simp only [deleteExtraneousKeys] at h
    by_cases hin : cfgIDs.contains a = true
    · rw [if_pos hin] at h
      exact List.mem_cons_of_mem _ (ih kr kid h)
    · rw [if_neg hin] at h
      cases hsk : isSecretKey kr a with
      | ok b =>
        cases b with
        | false =>
          rw [hsk] at h
          simp only at h
          rcases List.mem_cons.mp h with rfl | hh
          · exact List.mem_cons_self _ _
          · exact List.mem_cons_of_mem _ (ih _ kid hh)
        | true =>
          rw [hsk] at h
          exact List.mem_cons_of_mem _ (ih kr kid h)
      | error e =>
        rw [hsk] at h
        exact List.mem_cons_of_mem _ (ih kr kid h)

/-! ## Theorems about `SynchronizeGPGPublicKeys` (claims C1, C2, C3) -/

/-- C2: for every key ID marked secret in the keyring,
`SynchronizeGPGPublicKeys` never calls delete on it, whatever the configured
key set is: a secret key is excluded from the installed (non-secret) listing
that feeds the delete loop. -/
theorem synchronizeGPGPublicKeys_never_deletes_secret
    (env : GpgEnv) (penv : PgpEnv) (cm : List (String × String))
    (locked : Bool) (kr : Keyring) (kid : String)
    (hnd : (kr.map (·.keyID)).Nodup)
    (hsec : (⟨kid, true⟩ : KeyEntry) ∈ kr)
    (imps dels : List String)
    (hout : (synchronizeGPGPublicKeys env penv cm locked kr).1 = .ok (imps, dels)) :
    kid ∉ dels := by
  intro hmem
  cases locked with
  | true => simp [synchronizeGPGPublicKeys] at hout
  | false =>
    simp only [synchronizeGPGPublicKeys, Bool.false_eq_true, if_false] at hout
    cases hcfg : listConfiguredGPGPublicKeys penv cm with
    | error e =>
      rw [hcfg] at hout
      cases hout
    | ok configured =>
      rw [hcfg] at hout
      simp only [Except.ok.injEq, Prod.mk.injEq] at hout
      have hdels : dels = (syncGPGKeys env configured kr).2.2 := hout.2.symm
      rw [hdels] at hmem
      simp only [syncGPGKeys] at hmem
      have hin : kid ∈ listInstalledGPGPublicKeys kr :=
        deleteExtraneousKeys_subset env (configured.map Prod.fst)
          (listInstalledGPGPublicKeys kr) _ kid hmem
      exact secret_notMem_listInstalled hnd hsec hin

/-- Witness for C2: a keyring holding only the secret key `S`, an empty
configuration; the synchronization deletes nothing. -/
theorem synchronizeGPGPublicKeys_never_deletes_secret_witness :
    ("S" : String) ∉ ([] : List String) :=
  synchronizeGPGPublicKeys_never_deletes_secret
    ⟨fun _ => .ok [], fun _ => none⟩ ⟨fun k => k, fun _ => .ok []⟩ []
    false [⟨"S", true⟩] "S" (by simp) (by simp) [] [] rfl

/-- C3: the reconciliation lock. A call that finds the process-wide
single-slot lock taken fails immediately with the distinguishable locked
error and mutates nothing; a call that acquires it leaves the lock free on
every exit path; and in any interleaving of two concurrent calls, at most
one is ever inside the mutating body, the lock is held exactly while one of
them is, and a rejected call has performed no mutation. -/
theorem synchronizeGPGPublicKeys_mutual_exclusion
    (env : GpgEnv) (penv : PgpEnv) (cm : List (String × String)) (kr : Keyring) :
    (synchronizeGPGPublicKeys env penv cm true kr =
      (.error "GnuPG database is locked, try again.", true, kr)) ∧
    ((synchronizeGPGPublicKeys env penv cm false kr).2.1 = false) ∧
    (∀ s : SyncSysState, SyncReachable s →
      ¬(s.pc1 = .inBody ∧ s.pc2 = .inBody) ∧
      (s.lock = true ↔ (s.pc1 = .inBody ∨ s.pc2 = .inBody)) ∧
      (s.pc1 = .rejected → s.mutated1 = false) ∧
      (s.pc2 = .rejected → s.mutated2 = false)) := by
  refine ⟨rfl, ?_, ?_⟩
  · cases hcfg : listConfiguredGPGPublicKeys penv cm with
    | error e => simp [synchronizeGPGPublicKeys, hcfg]
    | ok configured => simp [synchronizeGPGPublicKeys, hcfg]
  · intro s hs
    obtain ⟨hlock, hmux, hm1, hm2⟩ := syncInv_reachable hs
    exact ⟨hmux, hlock,
      fun h => hm1 (by simp [h]),
      fun h => hm2 (by simp [h])⟩

/-- Witness for C3: the locked-rejection equation at a concrete call, and
the invariant at the initial state of the two-caller system. -/
theorem synchronizeGPGPublicKeys_mutual_exclusion_witness :
    (synchronizeGPGPublicKeys ⟨fun _ => .ok [], fun _ => none⟩
        ⟨fun k => k, fun _ => .ok []⟩ [] true [] =
      (.error "GnuPG database is locked, try again.", true, [])) ∧
    ¬(syncInit.pc1 = .inBody ∧ syncInit.pc2 = .inBody) := by
  have h := synchronizeGPGPublicKeys_mutual_exclusion
    ⟨fun _ => .ok [], fun _ => none⟩ ⟨fun k => k, fun _ => .ok []⟩ [] []
  exact ⟨h.1, (h.2.2 syncInit Relation.ReflTransGen.refl).1⟩

/-- C1: reconciliation convergence. With the lock free, a valid
configuration, and every attempted import and delete succeeding (imports
installing exactly the declared key ID), `SynchronizeGPGPublicKeys` returns
without error and afterwards the non-secret subset of the keyring equals the
declared key set; and when the non-secret subset already equals the declared
set, the call attempts zero imports and zero deletes. -/
theorem synchronizeGPGPublicKeys_converges
    (env : GpgEnv) (penv : PgpEnv) (cm : List (String × String)) (kr : Keyring)
    (configured : List (String × String))
    (hcfg : listConfiguredGPGPublicKeys penv cm = .ok configured)
    (hndC : (configured.map Prod.fst).Nodup)
    (hndK : (kr.map (·.keyID)).Nodup)
    (hsec : ∀ e ∈ kr, e.isSecret = true → e.keyID ∉ configured.map Prod.fst)
    (himp : ∀ p ∈ configured, p.1 ∉ listInstalledGPGPublicKeys kr →
      env.importOutcome p.2 = .ok [p.1])
    (hdel : ∀ kid ∈ listInstalledGPGPublicKeys kr,
      kid ∉ configured.map Prod.fst → env.deleteOutcome kid = none) :
    ∃ imps dels kr',
      synchronizeGPGPublicKeys env penv cm false kr = (.ok (imps, dels), false, kr') ∧
      (∀ x, x ∈ listInstalledGPGPublicKeys kr' ↔ x ∈ configured.map Prod.fst) ∧
      ((∀ x, x ∈ listInstalledGPGPublicKeys kr ↔ x ∈ configured.map Prod.fst) →
        imps = [] ∧ dels = []) := by
  have hndI : (listInstalledGPGPublicKeys kr).Nodup := listInstalled_nodup hndK
  -- configured keys absent from the installed listing have no entry at all
  have hfresh : ∀ p ∈ configured, p.1 ∉ listInstalledGPGPublicKeys kr →
      hasEntry kr p.1 = false := by
    intro p hp hpn
    cases hhe : hasEntry kr p.1 with
    | false => rfl
    | true =>
      obtain ⟨e, hek, hid⟩ := hasEntry_iff.mp hhe
      cases hes : e.isSecret with
      | false =>
        exact absurd ((mem_listInstalled_iff hndK).mpr ⟨e, hek, hid, hes⟩) hpn
      | true =>
        exact absurd (List.mem_map_of_mem Prod.fst hp) (hid ▸ hsec e hek hes)
  have himpSpec := importMissingKeys_spec env (listInstalledGPGPublicKeys kr)
    configured kr hndC himp hfresh
  -- the entries appended by the import loop
  set ext : Keyring :=
    (configured.filter (fun p => !(listInstalledGPGPublicKeys kr).contains p.1)).map
      (fun p => ⟨p.1, false⟩) with hext
  have hextIds : ext.map (·.keyID) =
      (configured.filter (fun p => !(listInstalledGPGPublicKeys kr).contains p.1)).map
        Prod.fst := by
    rw [hext, List.map_map]
    rfl
  have hndExt : (ext.map (·.keyID)).Nodup := by
    rw [hextIds]
    exact ((List.filter_sublist configured).map Prod.fst).nodup hndC
  have hdisj : ∀ x ∈ kr.map (·.keyID), x ∉ ext.map (·.keyID) := by
    intro x hx hxe
    rw [hextIds] at hxe
    obtain ⟨p, hpf, rfl⟩ := List.mem_map.mp hxe
    have hpc : p ∈ configured := List.mem_of_mem_filter hpf
    have hpni : p.1 ∉ listInstalledGPGPublicKeys kr := by
      have := List.of_mem_filter hpf
      simpa using this
    obtain ⟨e, hek, hid⟩ := List.mem_map.mp hx
    have hhe : hasEntry kr p.1 = true := hasEntry_iff.mpr ⟨e, hek, hid⟩
    rw [hfresh p hpc hpni] at hhe
    cases hhe
  have hndK1 : ((kr ++ ext).map (·.keyID)).Nodup := by
    rw [List.map_append, List.nodup_append]
    exact ⟨hndK, hndExt, hdisj⟩
  have hpub1 : ∀ kid ∈ listInstalledGPGPublicKeys kr,
      kid ∉ configured.map Prod.fst → (⟨kid, false⟩ : KeyEntry) ∈ kr ++ ext := by
    intro kid hk _
    obtain ⟨e, hek, hid, hes⟩ := (mem_listInstalled_iff hndK).mp hk
    have he : e = ⟨kid, false⟩ := by
      cases e
      simp only at hid hes
      rw [hid, hes]
    exact List.mem_append_left _ (he ▸ hek)
  have hdelSpec := deleteExtraneousKeys_spec env (configured.map Prod.fst)
    (listInstalledGPGPublicKeys kr) (kr ++ ext) hndI hndK1 hdel hpub1
  -- name the three results
  set imps : List String :=
    (configured.filter (fun p => !(listInstalledGPGPublicKeys kr).contains p.1)).map
      Prod.fst with himps
  set dels : List String :=
    (listInstalledGPGPublicKeys kr).filter
      (fun k => !(configured.map Prod.fst).contains k) with hdels
  set krF : Keyring :=
    (kr ++ ext).filter (fun e => !dels.contains e.keyID) with hkrF
  have hsync : syncGPGKeys env configured kr = (krF, imps, dels) := by
    simp only [syncGPGKeys]
    rw [himpSpec]
    simp only
    rw [hdelSpec]
  have hndF : (krF.map (·.keyID)).Nodup := by
    rw [hkrF]
    exact ((List.filter_sublist (kr ++ ext)).map (·.keyID)).nodup hndK1
  refine ⟨imps, dels, krF, ?_, ?_, ?_⟩
  · simp only [synchronizeGPGPublicKeys, Bool.false_eq_true, if_false, hcfg, hsync]
  · intro x
    rw [mem_listInstalled_iff hndF]
    constructor
    · rintro ⟨e, heF, rfl, hes⟩
      rw [hkrF] at heF
      have heK1 : e ∈ kr ++ ext := List.mem_of_mem_filter heF
      have hpred : e.keyID ∉ dels := by
        have := List.of_mem_filter heF
        simpa using this
      rcases List.mem_append.mp heK1 with hkr | hextm
      · have hxi : e.keyID ∈ listInstalledGPGPublicKeys kr :=
          (mem_listInstalled_iff hndK).mpr ⟨e, hkr, rfl, hes⟩
        by_contra hxc
        apply hpred
        rw [hdels, List.mem_filter]
        exact ⟨hxi, by simpa using hxc⟩
      · rw [hext] at hextm
        obtain ⟨p, hpf, hpe⟩ := List.mem_map.mp hextm
        have hide : e.keyID = p.1 := by rw [← hpe]
        rw [hide]
        exact List.mem_map_of_mem Prod.fst (List.mem_of_mem_filter hpf)
    · intro hxc
      by_cases hxi : x ∈ listInstalledGPGPublicKeys kr
      · obtain ⟨e, hkr, hid, hes⟩ := (mem_listInstalled_iff hndK).mp hxi
        refine ⟨e, ?_, hid, hes⟩
        rw [hkrF, List.mem_filter]
        refine ⟨List.mem_append_left _ hkr, ?_⟩
        have hnd2 : e.keyID ∉ dels := by
          rw [hdels, List.mem_filter]
          rintro ⟨-, hnc⟩
          rw [hid] at hnc
          simp [hxc] at hnc
        simpa using hnd2
      · obtain ⟨p, hpc, hpx⟩ := List.mem_map.mp hxc
        refine ⟨⟨x, false⟩, ?_, rfl, rfl⟩
        rw [hkrF, List.mem_filter]
        constructor
        · apply List.mem_append_right
          rw [hext]
          apply List.mem_map.mpr
          refine ⟨p, ?_, ?_⟩
          · rw [List.mem_filter]
            refine ⟨hpc, ?_⟩
            rw [hpx]
            simpa using hxi
          · rw [hpx]
        · have hnd2 : x ∉ dels := by
            rw [hdels]
            intro hc
            exact hxi (List.mem_of_mem_filter hc)
          simpa using hnd2
  · intro heq
    constructor
    · rw [himps, List.map_eq_nil_iff, List.filter_eq_nil_iff]
      intro p hp
      have hpi : p.1 ∈ listInstalledGPGPublicKeys kr :=
        (heq p.1).mpr (List.mem_map_of_mem Prod.fst hp)
      simpa using hpi
    · rw [hdels, List.filter_eq_nil_iff]
      intro k hk
      have : k ∈ configured.map Prod.fst := (heq k).mp hk
      simpa using this

/-- Witness for C1: declare `{A}` over an empty keyring; the synchronization
succeeds, imports `A`, and the keyring's non-secret subset is exactly `{A}`. -/
theorem synchronizeGPGPublicKeys_converges_witness :
    ∃ imps dels kr',
      synchronizeGPGPublicKeys ⟨fun _ => .ok ["A"], fun _ => none⟩
          ⟨fun k => k, fun _ => .ok ["A"]⟩ [("A", "matA")] false [] =
        (.ok (imps, dels), false, kr') ∧
      (∀ x, x ∈ listInstalledGPGPublicKeys kr' ↔
        x ∈ ([("A", "matA")] : List (String × String)).map Prod.fst) ∧
      ((∀ x, x ∈ listInstalledGPGPublicKeys ([] : Keyring) ↔
          x ∈ ([("A", "matA")] : List (String × String)).map Prod.fst) →
        imps = [] ∧ dels = []) := by
  refine synchronizeGPGPublicKeys_converges _ _ _ _ [("A", "matA")] rfl
    (by simp) (by simp) (by simp) ?_ ?_
  · intro p hp _
    simp only [List.mem_singleton] at hp
    rw [hp]
  · intro kid hk _
    simp [listInstalledGPGPublicKeys] at hk

/-! ## Theorems about `ListConfiguredGPGPublicKeys` (claim C8) -/

/-- C8: `ListConfiguredGPGPublicKeys` fails — with no partial result, its
result type carrying either an error or the full mapping — as soon as any
configured entry fails validation, is ambiguous (the validator returns other
than exactly one parsed key), parses to a key ID different from its declared
key, or has a declared key that is not a valid key ID; it succeeds exactly
when every entry validates, and then maps each declared key ID to its
material. -/
theorem listConfiguredGPGPublicKeys_validates_all (penv : PgpEnv)
    (cm : List (String × String)) :
    (∀ m, listConfiguredGPGPublicKeys penv cm = .ok m →
      (∀ p ∈ cm, validEntry penv p) ∧ m = cm.map (fun p => (penv.keyIDfn p.1, p.2))) ∧
    ((∀ p ∈ cm, validEntry penv p) →
      listConfiguredGPGPublicKeys penv cm = .ok (cm.map (fun p => (penv.keyIDfn p.1, p.2)))) := by
  induction cm with
  | nil =>
    refine ⟨fun m h => ⟨by simp, ?_⟩, fun _ => rfl⟩
    simpa using (Except.ok.inj h).symm
  | cons hd rest ih =>
    obtain ⟨k, p⟩ := hd
    by_cases hk : penv.keyIDfn k = ""
    · constructor
      · intro m h
        simp [listConfiguredGPGPublicKeys, hk] at h
      · intro hall
        exact absurd (hall (k, p) (by simp)).1 (by simp [hk])
    · cases hv : penv.validateOutcome p with
      | error e =>
        constructor
        · intro m h
          simp [listConfiguredGPGPublicKeys, validatePGPKey, hk, hv] at h
        · intro hall
          have h2 := (hall (k, p) (by simp)).2
          rw [hv] at h2
          cases h2
      | ok parsed =>
        match parsed with
        | [] =>
          constructor
          · intro m h
            simp [listConfiguredGPGPublicKeys, validatePGPKey, hk, hv] at h
          · intro hall
            have h2 := (hall (k, p) (by simp)).2
            rw [hv] at h2
            simp at h2
        | kid :: kid2 :: more =>
          constructor
          · intro m h
            simp [listConfiguredGPGPublicKeys, validatePGPKey, hk, hv] at h
          · intro hall
            have h2 := (hall (k, p) (by simp)).2
            rw [hv] at h2
            simp at h2
        | [kid] =>
          by_cases hkid : penv.keyIDfn k = kid
          · have hkid' : ¬kid = "" := hkid ▸ hk
            constructor
            · intro m h
              simp only [listConfiguredGPGPublicKeys, validatePGPKey, hv, hk, hkid,
                ne_eq, not_false_iff, if_true, not_true, if_false, ite_not] at h
              rw [if_neg hkid'] at h
              cases hrest : listConfiguredGPGPublicKeys penv rest with
              | error e =>
                rw [hrest] at h
                cases h
              | ok r =>
                rw [hrest] at h
                obtain ⟨hvalid, hmap⟩ := (ih.1 r hrest)
                have hm := (Except.ok.inj h).symm
                subst hm
                refine ⟨?_, ?_⟩
                · intro q hq
                  rcases List.mem_cons.mp hq with hq1 | hq2
                  · subst hq1
                    exact ⟨hk, by rw [hv, hkid]⟩
                  · exact hvalid q hq2
                · simp [hmap, hkid]
            · intro hall
              have hrest := ih.2 (fun q hq => hall q (List.mem_cons_of_mem _ hq))
              simp only [listConfiguredGPGPublicKeys, validatePGPKey, hv, hk, hkid, hrest,
                ne_eq, not_false_iff, if_true, not_true, if_false, ite_not]
              rw [if_neg hkid']
              simp [hkid]
          · constructor
            · intro m h
              simp [listConfiguredGPGPublicKeys, validatePGPKey, hk, hv, hkid] at h
            · intro hall
              have h2 := (hall (k, p) (by simp)).2
              rw [hv] at h2
              simp only [Except.ok.injEq, List.cons.injEq] at h2
              exact absurd h2.1.symm hkid

/-- Witness for C8 at a concrete environment and ConfigMap. -/
theorem listConfiguredGPGPublicKeys_validates_all_witness :
    listConfiguredGPGPublicKeys
      ⟨fun k => k, fun _ => .ok ["AAAA1234"]⟩ [("AAAA1234", "material")] =
      .ok [("AAAA1234", "material")] := by
  exact (listConfiguredGPGPublicKeys_validates_all
      ⟨fun k => k, fun _ => .ok ["AAAA1234"]⟩ [("AAAA1234", "material")]).2
    (by intro q hq; simp at hq; subst hq; exact ⟨by simp, rfl⟩)

/-! ## Repository registry data model (`server/repository`)

The repository record carries the fields the server reads and writes; the
`connectionState` field is the volatile probe result embedded in the record
(spec §3). Timestamps are abstract `Nat` instants. -/

inductive ConnStatus where
  | unknown | successful | failed
deriving DecidableEq, Repr

structure ConnectionState where
  status : ConnStatus
  message : String
  modifiedAt : Option Nat
deriving DecidableEq, Repr

structure Repository where
  repo : String
  username : String
  password : String
  sshPrivateKey : String
  insecure : Bool
  enableLFS : Bool
  tlsClientCertData : String
  tlsClientCertKey : String
  connectionState : ConnectionState
deriving DecidableEq, Repr

def emptyConnectionState : ConnectionState := ⟨.unknown, "", none⟩

/-- The zero `appsv1.Repository` value, from which the server builds its
URL-only responses (`&appsv1.Repository{Repo: ...}`). -/
def emptyRepository : Repository :=
  { repo := ""
    username := ""
    password := ""
    sshPrivateKey := ""
    insecure := false
    enableLFS := false
    tlsClientCertData := ""
    tlsClientCertKey := ""
    connectionState := emptyConnectionState }

/-- Modelled from the spec: `appsv1.Repository.HasCredentials` is outside the
covered sources; spec §4.2 asks whether the incoming record "carries no
explicit credentials". -/
def hasCredentials (r : Repository) : Bool :=
  (r.username != "") || (r.password != "") || (r.sshPrivateKey != "") ||
    (r.tlsClientCertData != "")

/-- Modelled from the spec: `appsv1.Repository.CopyCredentialsFrom` is outside
the covered sources; it copies the credential fields of `src` onto `dst`. -/
def copyCredentialsFrom (dst src : Repository) : Repository :=
  { dst with
    username := src.username
    password := src.password
    sshPrivateKey := src.sshPrivateKey
    insecure := src.insecure
    tlsClientCertData := src.tlsClientCertData
    tlsClientCertKey := src.tlsClientCertKey }

inductive ErrCode where
  | permissionDenied | invalidArgument | internal | alreadyExists | notFound
deriving DecidableEq, Repr

structure ApiErr where
  code : ErrCode
  message : String
deriving DecidableEq, Repr

def permissionDeniedErr : ApiErr := ⟨.permissionDenied, "permission denied"⟩

/-- Association-list lookup keyed by URL. -/
def lookupEntry {α : Type} (l : List (String × α)) (k : String) : Option α :=
  (l.find? (fun p => p.1 == k)).map Prod.snd

/-- Association-list overwrite-or-insert keyed by URL (the store is a
key/value mapping, so the entry order is representation detail). -/
def setEntry {α : Type} (l : List (String × α)) (k : String) (v : α) :
    List (String × α) :=
  l.filter (fun p => p.1 ≠ k) ++ [(k, v)]

/-- Association-list removal keyed by URL. -/
def removeEntry {α : Type} (l : List (String × α)) (k : String) :
    List (String × α) :=
  l.filter (fun p => p.1 ≠ k)

/-- The storage and cache state behind the repository server: repository
records and credential records keyed by URL, and the connection-state cache
side table (spec §3). -/
structure RegistryState where
  repos : List (String × Repository)
  creds : List (String × Repository)
  cache : List (String × ConnectionState)
deriving DecidableEq, Repr

/-- The RBAC actions the repository server submits to the enforcer. -/
inductive RepoAction where
  | get | create | update | delete
deriving DecidableEq, Repr

/-- `repositorypkg.RepoQuery`. -/
structure RepoQuery where
  repo : String
  forceRefresh : Bool
deriving DecidableEq, Repr

/-- `repositorypkg.RepoCreateRequest`. -/
structure RepoCreateRequest where
  repo : Repository
  upsert : Bool
deriving DecidableEq, Repr

/-- `repositorypkg.RepoUpdateRequest`. -/
structure RepoUpdateRequest where
  repo : Repository
deriving DecidableEq, Repr

/-- Oracle for the server's external collaborators: the RBAC enforcer
(`enf.Enforce` over a fixed subject), `git.TestRepo` (url, credential source
record, insecure, enableLFS; `none` = reachable), and whether a
connection-state cache write fails (failures are logged, never propagated). -/
structure RepoEnv where
  enforce : RepoAction → String → Bool
  testRepo : String → Option Repository → Bool → Bool → Option String
  cacheSetFails : String → Bool

/-- Modelled from the spec: the persistent storage behind `db.CreateRepository`
is external; spec §6 requires record-level create with "already exists" as a
distinguishable conflict error, leaving the store unchanged on conflict. -/
def dbCreateRepository (st : RegistryState) (r : Repository) :
    Except ApiErr Repository × RegistryState :=
  if (lookupEntry st.repos r.repo).isSome then
    (.error ⟨.alreadyExists, "repository already exists"⟩, st)
  else
    (.ok r, { st with repos := st.repos ++ [(r.repo, r)] })

/-- Modelled from the spec: storage get by URL (`db.GetRepository`), with a
lookup error when the record is absent. -/
def dbGetRepository (st : RegistryState) (url : String) : Except ApiErr Repository :=
  match lookupEntry st.repos url with
  | some r => .ok r
  | none => .error ⟨.notFound, "repository " ++ url ++ " not found"⟩

/-- Modelled from the spec: `db.UpdateRepository` is a direct overwrite of the
stored record by URL, no diffing (spec §4.2). -/
def dbUpdateRepository (st : RegistryState) (r : Repository) : RegistryState :=
  { st with repos := setEntry st.repos r.repo r }

/-- Modelled from the spec: storage delete by URL (`db.DeleteRepository`). -/
def dbDeleteRepository (st : RegistryState) (url : String) : RegistryState :=
  { st with repos := removeEntry st.repos url }

/-- Modelled from the spec: credential-record create with the same conflict
behaviour as `dbCreateRepository`. -/
def dbCreateRepositoryCredentials (st : RegistryState) (r : Repository) :
    Except ApiErr Repository × RegistryState :=
  if (lookupEntry st.creds r.repo).isSome then
    (.error ⟨.alreadyExists, "repository credentials already exist"⟩, st)
  else
    (.ok r, { st with creds := st.creds ++ [(r.repo, r)] })

/-- Modelled from the spec: credential-record overwrite by URL. -/
def dbUpdateRepositoryCredentials (st : RegistryState) (r : Repository) :
    RegistryState :=
  { st with creds := setEntry st.creds r.repo r }

/-- Modelled from the spec: credential-record delete by URL. -/
def dbDeleteRepositoryCredentials (st : RegistryState) (url : String) :
    RegistryState :=
  { st with creds := removeEntry st.creds url }

/-- Modelled from the spec: `db.GetRepositoryCredentials` picks the matching
credential record by longest URL prefix (spec §4.2: "longest-URL-prefix or
exact match, implementation-defined but must be deterministic"); `none` when
no credential record matches. -/
def getRepositoryCredentials (creds : List (String × Repository)) (url : String) :
    Option Repository :=
  ((creds.filter (fun p => p.1.isPrefixOf url)).foldl
    (fun best p =>
      match best with
      | none => some p
      | some b => if p.1.length > b.1.length then some p else some b)
    none).map Prod.snd

/-- The credential source `CreateRepository` probes with (part_000:293-304):
the incoming record's own credentials when it has any, otherwise the
configured credential record for the URL. -/
def repoCredsSource (creds : List (String × Repository)) (r : Repository) :
    Option Repository :=
  if hasCredentials r then
    some (copyCredentialsFrom { emptyRepository with repo := r.repo } r)
  else getRepositoryCredentials creds r.repo

/-! ## Repository server operations (`server/repository`) -/

/-- `getConnectionState` (part_000:60-84): serve the cached state unless a
refresh is forced; otherwise look up the record and probe it, capturing any
error — the record lookup error as well as the probe error — into a
`Failed` state instead of propagating it; always attempt the cache
write-back, ignoring its failure. -/
def getConnectionState (env : RepoEnv) (st : RegistryState) (url : String)
    (forceRefresh : Bool) (now : Nat) : ConnectionState × RegistryState :=
  match if forceRefresh then none else lookupEntry st.cache url with
  | some cs => (cs, st)
  | none =>
    let probeErr : Option String :=
      match dbGetRepository st url with
      | .ok repo => env.testRepo repo.repo (some repo) repo.insecure repo.enableLFS
      | .error e => some e.message
    let connectionState : ConnectionState :=
      match probeErr with
      | none => ⟨.successful, "", some now⟩
      | some msg => ⟨.failed, "Unable to connect to repository: " ++ msg, some now⟩
    let st' :=
      if env.cacheSetFails url then st
      else { st with cache := setEntry st.cache url connectionState }
    (connectionState, st')

/-- The per-URL loop of `ListRepositories` (part_000:99-112): keep exactly the
URLs the enforcer admits, silently omitting the others, and build the
URL/username/insecure/enableLFS items. -/
def listItemsAux (env : RepoEnv) (st : RegistryState) :
    List String → Except ApiErr (List Repository)
  | [] => .ok []
  | url :: rest =>
    if env.enforce .get url then
      match dbGetRepository st url with
      | .error e => .error e
      | .ok repo =>
        match listItemsAux env st rest with
        | .error e => .error e
        | .ok items =>
          .ok ({ emptyRepository with
            repo := url
            username := repo.username
            insecure := repo.insecure
            enableLFS := repo.enableLFS } :: items)
    else listItemsAux env st rest

/-- The connection-state pass of `ListRepositories` (part_000:113-116); the
source fans the probes out concurrently with `util.RunAllAsync`, which this
sequential pass linearizes (last-writer-wins on the shared cache is the
spec's stated tolerance, §5). -/
def attachConnStates (env : RepoEnv) (forceRefresh : Bool) (now : Nat) :
    List Repository → RegistryState → List Repository × RegistryState
  | [], st => ([], st)
  | item :: rest, st =>
    let out := getConnectionState env st item.repo forceRefresh now
    let outRest := attachConnStates env forceRefresh now rest out.2
    ({ item with connectionState := out.1 } :: outRest.1, outRest.2)

/-- `ListRepositories` (part_000:93-121). -/
def listRepositories (env : RepoEnv) (st : RegistryState) (q : RepoQuery) (now : Nat) :
    Except ApiErr (List Repository) × RegistryState :=
  match listItemsAux env st (st.repos.map Prod.fst) with
  | .error e => (.error e, st)
  | .ok items =>
    let out := attachConnStates env q.forceRefresh now items st
    (.ok out.1, out.2)

/-- `UpdateRepository` (part_000:365-371): authorization first, then a direct
store overwrite; the response carries only the URL. -/
def updateRepository (env : RepoEnv) (st : RegistryState) (q : RepoUpdateRequest) :
    Except ApiErr Repository × RegistryState :=
  if env.enforce .update q.repo.repo then
    (.ok { emptyRepository with repo := q.repo.repo }, dbUpdateRepository st q.repo)
  else
    (.error permissionDeniedErr, st)

/-- `UpdateRepositoryCredentials` (part_000:374-380). -/
def updateRepositoryCredentials (env : RepoEnv) (st : RegistryState)
    (q : RepoUpdateRequest) : Except ApiErr Repository × RegistryState :=
  if env.enforce .update q.repo.repo then
    (.ok { emptyRepository with repo := q.repo.repo },
      dbUpdateRepositoryCredentials st q.repo)
  else
    (.error permissionDeniedErr, st)

/-- The record the create path stores: the incoming record with its volatile
`connectionState` set to `Successful` (part_000:311). -/
def probedRecord (r0 : Repository) : Repository :=
  { r0 with connectionState := ⟨.successful, "", none⟩ }

theorem probedRecord_repo (r : Repository) : (probedRecord r).repo = r.repo := rfl

theorem probedRecord_connectionState (r : Repository) :
    (probedRecord r).connectionState = ⟨.successful, "", none⟩ := rfl

theorem probedRecord_resetConnectionState (r : Repository) :
    ({ probedRecord r with
      connectionState := (⟨.successful, "", none⟩ : ConnectionState) }) =
      probedRecord r := rfl

/-- The "already exists" branch of `CreateRepository` (part_000:313-328):
re-read the existing record, overwrite the volatile `connectionState` on the
copy so state differences cause no spurious mismatch, then act idempotent,
upsert, or reject. -/
def createRepositoryConflict (env : RepoEnv) (st' : RegistryState)
    (r : Repository) (upsert : Bool) : Except ApiErr Repository × RegistryState :=
  match dbGetRepository st' r.repo with
  | .error ge =>
    (.error ⟨.internal,
      "unable to check existing repository details: " ++ ge.message⟩, st')
  | .ok existing0 =>
    let existing := { existing0 with connectionState := r.connectionState }
    if existing = r then
      (.ok { emptyRepository with repo := existing.repo }, st')
    else if upsert then
      updateRepository env st' ⟨r⟩
    else
      (.error ⟨.invalidArgument,
        "existing repository spec is different; use upsert flag to force update"⟩,
        st')

/-- `CreateRepository` (part_000:284-331): authorization, credential
substitution, connectivity probe, then storage insertion; on an
"already exists" conflict, `createRepositoryConflict`. -/
def createRepository (env : RepoEnv) (st : RegistryState) (q : RepoCreateRequest) :
    Except ApiErr Repository × RegistryState :=
  if env.enforce .create q.repo.repo then
    match env.testRepo q.repo.repo (repoCredsSource st.creds q.repo)
        q.repo.insecure q.repo.enableLFS with
    | some e => (.error ⟨.internal, e⟩, st)
    | none =>
      match dbCreateRepository st (probedRecord q.repo) with
      | (.ok created, st') => (.ok { emptyRepository with repo := created.repo }, st')
      | (.error err, st') =>
        if err.code = .alreadyExists then
          createRepositoryConflict env st' (probedRecord q.repo) q.upsert
        else (.error err, st')
  else (.error permissionDeniedErr, st)

/-- The "already exists" branch of `CreateRepositoryCredentials`
(part_000:340-354); the stored credential record is compared to the incoming
one directly — no connection-state normalization. -/
def createRepositoryCredentialsConflict (env : RepoEnv) (st' : RegistryState)
    (r : Repository) (upsert : Bool) : Except ApiErr Repository × RegistryState :=
  if getRepositoryCredentials st'.creds r.repo = some r then
    (.ok { emptyRepository with repo := r.repo }, st')
  else if upsert then
    updateRepositoryCredentials env st' ⟨r⟩
  else
    (.error ⟨.invalidArgument,
      "existing repository credentials spec is different; use upsert flag to force update"⟩,
      st')

/-- `CreateRepositoryCredentials` (part_000:333-356): like `CreateRepository`
but with no probe. -/
def createRepositoryCredentials (env : RepoEnv) (st : RegistryState)
    (q : RepoCreateRequest) : Except ApiErr Repository × RegistryState :=
  if env.enforce .create q.repo.repo then
    match dbCreateRepositoryCredentials st q.repo with
    | (.ok created, st') => (.ok { emptyRepository with repo := created.repo }, st')
    | (.error err, st') =>
      if err.code = .alreadyExists then
        createRepositoryCredentialsConflict env st' q.repo q.upsert
      else (.error err, st')
  else (.error permissionDeniedErr, st)

/-- `DeleteRepository` (part_000:389-401): authorization, connection-state
cache invalidation (its failure only logged), then the storage delete. -/
def deleteRepository (env : RepoEnv) (st : RegistryState) (q : RepoQuery) :
    Except ApiErr Unit × RegistryState :=
  if env.enforce .delete q.repo then
    let st1 :=
      if env.cacheSetFails q.repo then st
      else { st with cache := removeEntry st.cache q.repo }
    (.ok (), dbDeleteRepository st1 q.repo)
  else (.error permissionDeniedErr, st)

/-- `DeleteRepositoryCredentials` (part_000:404-411). -/
def deleteRepositoryCredentials (env : RepoEnv) (st : RegistryState)
    (q : RepoQuery) : Except ApiErr Unit × RegistryState :=
  if env.enforce .delete q.repo then
    (.ok (), dbDeleteRepositoryCredentials st q.repo)
  else (.error permissionDeniedErr, st)

/-! ## Association-list lemmas -/

theorem lookupEntry_cons_of_eq {α : Type} {a : String × α} {l : List (String × α)}
    {k : String} (hk : a.1 = k) : lookupEntry (a :: l) k = some a.2 := by
  rw [lookupEntry, List.find?_cons_of_pos _ (by simpa using hk)]
  rfl

theorem lookupEntry_cons_of_ne {α : Type} {a : String × α} {l : List (String × α)}
    {k : String} (hk : ¬(a.1 = k)) : lookupEntry (a :: l) k = lookupEntry l k := by
  rw [lookupEntry, List.find?_cons_of_neg _ (by simpa using hk)]
  rfl

theorem lookupEntry_append_self {α : Type} {l : List (String × α)} {k : String}
    (v : α) (h : lookupEntry l k = none) :
    lookupEntry (l ++ [(k, v)]) k = some v := by
  induction l with
  | nil => simp [lookupEntry]
  | cons a l ih =>
    rw [List.cons_append]
    by_cases hk : a.1 = k
    · rw [lookupEntry_cons_of_eq hk] at h
      cases h
    · rw [lookupEntry_cons_of_ne hk] at h
      rw [lookupEntry_cons_of_ne hk]
      exact ih h

theorem lookupEntry_filter_ne {α : Type} (l : List (String × α)) (k : String) :
    lookupEntry (l.filter (fun p => p.1 ≠ k)) k = none := by
  have hf : (l.filter (fun p => p.1 ≠ k)).find? (fun p => p.1 == k) = none := by
    rw [List.find?_eq_none]
    intro p hp
    have := List.of_mem_filter hp
    simp at this ⊢
    exact this
  rw [lookupEntry, hf]
  rfl

theorem lookupEntry_setEntry {α : Type} (l : List (String × α)) (k : String) (v : α) :
    lookupEntry (setEntry l k v) k = some v := by
  rw [setEntry]
  exact lookupEntry_append_self v (lookupEntry_filter_ne l k)

theorem lookupEntry_isSome_of_mem_keys {α : Type} {l : List (String × α)} {k : String}
    (h : k ∈ l.map Prod.fst) : (lookupEntry l k).isSome = true := by
  induction l with
  | nil => simp at h
  | cons a l ih =>
    by_cases hk : a.1 = k
    · rw [lookupEntry_cons_of_eq hk]
      rfl
    · rw [lookupEntry_cons_of_ne hk]
      rw [List.map_cons, List.mem_cons] at h
      rcases h with h | h
      · exact absurd h.symm hk
      · exact ih h

/-! ## Concrete instances used by witnesses -/

/-- An oracle that admits every action, reaches every repository and never
fails a cache write. -/
def allowEnv : RepoEnv := ⟨fun _ _ => true, fun _ _ _ _ => none, fun _ => false⟩

/-- An oracle that denies every action. -/
def denyEnv : RepoEnv := ⟨fun _ _ => false, fun _ _ _ _ => none, fun _ => false⟩

def emptyRegistry : RegistryState := ⟨[], [], []⟩

/-! ## Theorems about `getConnectionState` (claim C7) -/

/-- C7 counterexample: with an empty store — so the repository record lookup
for `u` fails — and a probe oracle that always succeeds,
`getConnectionState` returns normally with the lookup failure captured into
a `{Failed, diagnostic, now}` state and written to the cache; the lookup
error is not surfaced as an operation error (the operation has no error
output at all), so the `Failed` diagnostic can only come from the captured
storage lookup error. -/
theorem getConnectionState_lookup_error_captured :
    getConnectionState allowEnv emptyRegistry "u" false 5 =
      (⟨.failed, "Unable to connect to repository: repository u not found", some 5⟩,
        ⟨[], [],
          [("u", ⟨.failed, "Unable to connect to repository: repository u not found",
            some 5⟩)]⟩) := by
  rfl

/-- C7 amended: when the cache does not answer, `getConnectionState` captures
a repository-record lookup error exactly like a `ConnectionProbe` failure —
as a `{Failed, diagnostic, now}` state — and never propagates either as a
call failure. -/
theorem getConnectionState_captures_errors
    (env : RepoEnv) (st : RegistryState) (url : String) (now : Nat)
    (hmiss : lookupEntry st.cache url = none) :
    (∀ e, dbGetRepository st url = .error e →
      (getConnectionState env st url false now).1 =
        ⟨.failed, "Unable to connect to repository: " ++ e.message, some now⟩) ∧
    (∀ repo msg, dbGetRepository st url = .ok repo →
      env.testRepo repo.repo (some repo) repo.insecure repo.enableLFS = some msg →
      (getConnectionState env st url false now).1 =
        ⟨.failed, "Unable to connect to repository: " ++ msg, some now⟩) := by
  constructor
  · intro e he
    simp only [getConnectionState, Bool.false_eq_true, if_false, hmiss, he]
  · intro repo msg hr ht
    simp only [getConnectionState, Bool.false_eq_true, if_false, hmiss, hr, ht]

/-- Witness for the amended C7 at the concrete counterexample input. -/
theorem getConnectionState_captures_errors_witness :
    (getConnectionState allowEnv emptyRegistry "u" false 5).1 =
      ⟨.failed, "Unable to connect to repository: " ++
        (⟨.notFound, "repository u not found"⟩ : ApiErr).message, some 5⟩ :=
  (getConnectionState_captures_errors allowEnv emptyRegistry "u" 5 rfl).1
    ⟨.notFound, "repository u not found"⟩ rfl

/-! ## Theorems about `CreateRepository` (claims C4, C5, C6) -/

/-- C5: when the stored record for the URL differs from the incoming one
(after making the volatile `connectionState` consistent) and `upsert` is
false, `CreateRepository` fails with the conflict error whose message names
the `upsert` flag as the remedy, and leaves the whole store — in particular
the stored record — unchanged. -/
theorem createRepository_conflict_rejected
    (env : RepoEnv) (st : RegistryState) (q : RepoCreateRequest) (ex : Repository)
    (henf : env.enforce .create q.repo.repo = true)
    (htest : env.testRepo q.repo.repo (repoCredsSource st.creds q.repo)
      q.repo.insecure q.repo.enableLFS = none)
    (hstore : lookupEntry st.repos q.repo.repo = some ex)
    (hupsert : q.upsert = false)
    (hdiff : ¬({ ex with connectionState := (⟨.successful, "", none⟩ : ConnectionState) } =
      probedRecord q.repo)) :
    createRepository env st q =
      (.error ⟨.invalidArgument,
        "existing repository spec is different; use upsert flag to force update"⟩, st) ∧
    lookupEntry (createRepository env st q).2.repos q.repo.repo = some ex := by
  have hmain : createRepository env st q =
      (.error ⟨.invalidArgument,
        "existing repository spec is different; use upsert flag to force update"⟩, st) := by
    simp only [createRepository, henf, if_true, htest, dbCreateRepository,
      probedRecord_repo, hstore, Option.isSome_some, if_pos,
      createRepositoryConflict, dbGetRepository, probedRecord_connectionState, hupsert]
    rw [if_neg hdiff]
    simp
  exact ⟨hmain, by rw [hmain, hstore]⟩

/-- Witness for C5: a store holding `u` with username `alice`, an incoming
record for `u` with username `bob`, `upsert := false`. -/
theorem createRepository_conflict_rejected_witness :
    createRepository allowEnv
        ⟨[("u", { emptyRepository with repo := "u", username := "alice" })], [], []⟩
        ⟨{ emptyRepository with repo := "u", username := "bob" }, false⟩ =
      (.error ⟨.invalidArgument,
        "existing repository spec is different; use upsert flag to force update"⟩,
        ⟨[("u", { emptyRepository with repo := "u", username := "alice" })], [], []⟩) :=
  (createRepository_conflict_rejected allowEnv
    ⟨[("u", { emptyRepository with repo := "u", username := "alice" })], [], []⟩
    ⟨{ emptyRepository with repo := "u", username := "bob" }, false⟩
    { emptyRepository with repo := "u", username := "alice" }
    rfl rfl rfl rfl (by decide)).1

/-- C6: when the stored record differs (ignoring `connectionState`) and
`upsert` is true, `CreateRepository` is the call
`UpdateRepository` on the incoming record (whose `connectionState` the
create path has just set to `Successful`, `probedRecord`): same result, same
resulting state; and — the update being authorized — the store afterwards
holds the incoming record. -/
theorem createRepository_upsert_delegates
    (env : RepoEnv) (st : RegistryState) (q : RepoCreateRequest) (ex : Repository)
    (henf : env.enforce .create q.repo.repo = true)
    (henfU : env.enforce .update q.repo.repo = true)
    (htest : env.testRepo q.repo.repo (repoCredsSource st.creds q.repo)
      q.repo.insecure q.repo.enableLFS = none)
    (hstore : lookupEntry st.repos q.repo.repo = some ex)
    (hupsert : q.upsert = true)
    (hdiff : ¬({ ex with connectionState := (⟨.successful, "", none⟩ : ConnectionState) } =
      probedRecord q.repo)) :
    createRepository env st q = updateRepository env st ⟨probedRecord q.repo⟩ ∧
    (createRepository env st q).1 = .ok { emptyRepository with repo := q.repo.repo } ∧
    lookupEntry (createRepository env st q).2.repos q.repo.repo =
      some (probedRecord q.repo) := by
  have hmain : createRepository env st q =
      updateRepository env st ⟨probedRecord q.repo⟩ := by
    simp only [createRepository, henf, if_true, htest, dbCreateRepository,
      probedRecord_repo, hstore, Option.isSome_some, if_pos,
      createRepositoryConflict, dbGetRepository, probedRecord_connectionState, hupsert]
    rw [if_neg hdiff]
  have hupd : updateRepository env st ⟨probedRecord q.repo⟩ =
      (.ok { emptyRepository with repo := q.repo.repo },
        dbUpdateRepository st (probedRecord q.repo)) := by
    simp only [updateRepository, probedRecord_repo, henfU, if_true]
  refine ⟨hmain, ?_, ?_⟩
  · rw [hmain, hupd]
  · rw [hmain, hupd]
    have := lookupEntry_setEntry st.repos (probedRecord q.repo).repo (probedRecord q.repo)
    rw [probedRecord_repo] at this
    exact this

/-- Witness for C6 at the C5 input with `upsert := true`. -/
theorem createRepository_upsert_delegates_witness :
    createRepository allowEnv
        ⟨[("u", { emptyRepository with repo := "u", username := "alice" })], [], []⟩
        ⟨{ emptyRepository with repo := "u", username := "bob" }, true⟩ =
      updateRepository allowEnv
        ⟨[("u", { emptyRepository with repo := "u", username := "alice" })], [], []⟩
        ⟨probedRecord { emptyRepository with repo := "u", username := "bob" }⟩ :=
  (createRepository_upsert_delegates allowEnv
    ⟨[("u", { emptyRepository with repo := "u", username := "alice" })], [], []⟩
    ⟨{ emptyRepository with repo := "u", username := "bob" }, true⟩
    { emptyRepository with repo := "u", username := "alice" }
    rfl rfl rfl rfl rfl (by decide)).1

/-- C4: creating the same record twice with `upsert := false` succeeds twice
with the same URL-only response; the second call hits the "already exists"
conflict, normalizes `connectionState`, finds the stored record equal and
returns it without error and without touching the store. -/
theorem createRepository_idempotent
    (env : RepoEnv) (st : RegistryState) (q : RepoCreateRequest)
    (henf : env.enforce .create q.repo.repo = true)
    (habsent : lookupEntry st.repos q.repo.repo = none)
    (htest : env.testRepo q.repo.repo (repoCredsSource st.creds q.repo)
      q.repo.insecure q.repo.enableLFS = none)
    (hupsert : q.upsert = false) :
    ∃ st₁,
      createRepository env st q =
        (.ok { emptyRepository with repo := q.repo.repo }, st₁) ∧
      createRepository env st₁ q =
        (.ok { emptyRepository with repo := q.repo.repo }, st₁) := by
  refine ⟨{ st with repos := st.repos ++ [(q.repo.repo, probedRecord q.repo)] }, ?_, ?_⟩
  · simp only [createRepository, henf, if_true, htest, dbCreateRepository,
      probedRecord_repo, habsent, Option.isSome_none, Bool.false_eq_true, if_false]
  · have hstore1 : lookupEntry (st.repos ++ [(q.repo.repo, probedRecord q.repo)])
        ((probedRecord q.repo).repo) = some (probedRecord q.repo) :=
      lookupEntry_append_self _ habsent
    simp only [createRepository, henf, if_true, htest, dbCreateRepository,
      hstore1, Option.isSome_some, if_pos, createRepositoryConflict, dbGetRepository,
      probedRecord_connectionState, probedRecord_resetConnectionState]
    simp only [probedRecord_repo]

/-- Witness for C4: create `u` twice over an empty store. -/
theorem createRepository_idempotent_witness :
    ∃ st₁,
      createRepository allowEnv emptyRegistry
          ⟨{ emptyRepository with repo := "u" }, false⟩ =
        (.ok { emptyRepository with repo := "u" }, st₁) ∧
      createRepository allowEnv st₁
          ⟨{ emptyRepository with repo := "u" }, false⟩ =
        (.ok { emptyRepository with repo := "u" }, st₁) :=
  createRepository_idempotent allowEnv emptyRegistry
    ⟨{ emptyRepository with repo := "u" }, false⟩ rfl rfl rfl rfl

/-! ## Theorems about authorization gating (claim C9) -/

/-- The item-building loop of `ListRepositories` succeeds whenever every URL
it is given is backed by a record, and returns exactly the URLs the enforcer
admits, in order. -/
theorem listItemsAux_spec (env : RepoEnv) (st : RegistryState) :
    ∀ urls : List String, (∀ u ∈ urls, (lookupEntry st.repos u).isSome = true) →
      ∃ items, listItemsAux env st urls = .ok items ∧
        items.map (·.repo) = urls.filter (fun u => env.enforce .get u) := by
  intro urls
  induction urls with
  | nil =>
    intro _
    exact ⟨[], rfl, rfl⟩
  | cons url rest ih =>
    intro hall
    obtain ⟨items, hitems, hmap⟩ := ih (fun u hu => hall u (List.mem_cons_of_mem _ hu))
    by_cases he : env.enforce .get url = true
    · have hsome := hall url (List.mem_cons_self _ _)
      cases hrepo : lookupEntry st.repos url with
      | none => rw [hrepo] at hsome; cases hsome
      | some repo =>
        refine ⟨{ emptyRepository with
          repo := url
          username := repo.username
          insecure := repo.insecure
          enableLFS := repo.enableLFS } :: items, ?_, ?_⟩
        · simp only [listItemsAux, he, if_true, dbGetRepository, hrepo, hitems]
        · rw [List.filter_cons_of_pos (by simpa using he)]
          simp [hmap]
    · have he' : env.enforce .get url = false := by rwa [Bool.not_eq_true] at he
      refine ⟨items, ?_, ?_⟩
      · simp only [listItemsAux, he', Bool.false_eq_true, if_false, hitems]
      · rw [List.filter_cons_of_neg (by simpa using he')]
        exact hmap

/-- The connection-state pass changes only the `connectionState` of each
item: the listed URLs are untouched. -/
theorem attachConnStates_map (env : RepoEnv) (fr : Bool) (now : Nat) :
    ∀ (items : List Repository) (st : RegistryState),
      ((attachConnStates env fr now items st).1).map (·.repo) =
        items.map (·.repo) := by
  intro items
  induction items with
  | nil => intro st; rfl
  | cons item rest ih =>
    intro st
    simp only [attachConnStates, List.map_cons]
    rw [ih]

/-- C9: every mutating operation — `CreateRepository`, `UpdateRepository`,
`DeleteRepository` and their credential analogues — evaluates the
authorization oracle first and, on denial, fails with the permission error
leaving the state untouched (no storage access); `ListRepositories` instead
filters: it succeeds, listing exactly the stored URLs the oracle admits and
silently omitting the denied ones. -/
theorem authorization_gating (env : RepoEnv) (st : RegistryState) :
    (∀ q : RepoCreateRequest, env.enforce .create q.repo.repo = false →
      createRepository env st q = (.error permissionDeniedErr, st)) ∧
    (∀ q : RepoCreateRequest, env.enforce .create q.repo.repo = false →
      createRepositoryCredentials env st q = (.error permissionDeniedErr, st)) ∧
    (∀ q : RepoUpdateRequest, env.enforce .update q.repo.repo = false →
      updateRepository env st q = (.error permissionDeniedErr, st)) ∧
    (∀ q : RepoUpdateRequest, env.enforce .update q.repo.repo = false →
      updateRepositoryCredentials env st q = (.error permissionDeniedErr, st)) ∧
    (∀ q : RepoQuery, env.enforce .delete q.repo = false →
      deleteRepository env st q = (.error permissionDeniedErr, st)) ∧
    (∀ q : RepoQuery, env.enforce .delete q.repo = false →
      deleteRepositoryCredentials env st q = (.error permissionDeniedErr, st)) ∧
    (∀ (q : RepoQuery) (now : Nat), ∃ items st',
      listRepositories env st q now = (.ok items, st') ∧
      items.map (·.repo) = (st.repos.map Prod.fst).filter (fun u => env.enforce .get u)) := by
  refine ⟨?_, ?_, ?_, ?_, ?_, ?_, ?_⟩
  · intro q h
    simp [createRepository, h]
  · intro q h
    simp [createRepositoryCredentials, h]
  · intro q h
    simp [updateRepository, h]
  · intro q h
    simp [updateRepositoryCredentials, h]
  · intro q h
    simp [deleteRepository, h]
  · intro q h
    simp [deleteRepositoryCredentials, h]
  · intro q now
    obtain ⟨items, hitems, hmap⟩ := listItemsAux_spec env st (st.repos.map Prod.fst)
      (fun u hu => lookupEntry_isSome_of_mem_keys hu)
    refine ⟨(attachConnStates env q.forceRefresh now items st).1,
      (attachConnStates env q.forceRefresh now items st).2, ?_, ?_⟩
    · simp only [listRepositories, hitems]
    · rw [attachConnStates_map]
      exact hmap

/-- Witness for C9: the all-deny oracle rejects a delete without touching
the state, and listing under it returns no items. -/
theorem authorization_gating_witness :
    deleteRepository denyEnv emptyRegistry ⟨"u", false⟩ =
      (.error permissionDeniedErr, emptyRegistry) ∧
    ∃ items st',
      listRepositories denyEnv emptyRegistry ⟨"u", false⟩ 0 = (.ok items, st') ∧
      items.map (·.repo) =
        (emptyRegistry.repos.map Prod.fst).filter (fun u => denyEnv.enforce .get u) := by
  have h := authorization_gating denyEnv emptyRegistry
  exact ⟨h.2.2.2.2.1 ⟨"u", false⟩ rfl, h.2.2.2.2.2.2 ⟨"u", false⟩ 0⟩

/-! ## Theorems about response shape (claim C10) -/

/-- C10: whenever `CreateRepository`, `CreateRepositoryCredentials`,
`UpdateRepository` or `UpdateRepositoryCredentials` succeeds, the returned
record carries only the repository URL — every credential and state field is
the zero value, whatever the request and the store contain. -/
theorem mutating_responses_only_url (env : RepoEnv) (st : RegistryState) :
    (∀ (q : RepoCreateRequest) (rep : Repository) (st' : RegistryState),
      createRepository env st q = (.ok rep, st') →
      rep = { emptyRepository with repo := rep.repo }) ∧
    (∀ (q : RepoCreateRequest) (rep : Repository) (st' : RegistryState),
      createRepositoryCredentials env st q = (.ok rep, st') →
      rep = { emptyRepository with repo := rep.repo }) ∧
    (∀ (q : RepoUpdateRequest) (rep : Repository) (st' : RegistryState),
      updateRepository env st q = (.ok rep, st') →
      rep = { emptyRepository with repo := rep.repo }) ∧
    (∀ (q : RepoUpdateRequest) (rep : Repository) (st' : RegistryState),
      updateRepositoryCredentials env st q = (.ok rep, st') →
      rep = { emptyRepository with repo := rep.repo }) := by
  have hupd : ∀ (stu : RegistryState) (q : RepoUpdateRequest) (rep : Repository)
      (st' : RegistryState), updateRepository env stu q = (.ok rep, st') →
      rep = { emptyRepository with repo := rep.repo } := by
    intro stu q rep st' h
    unfold updateRepository at h
    split at h
    · have hrep := Except.ok.inj (Prod.mk.injEq _ _ _ _ ▸ h).1
      subst hrep
      rfl
    · cases (Prod.mk.injEq _ _ _ _ ▸ h).1
  have hupdc : ∀ (stu : RegistryState) (q : RepoUpdateRequest) (rep : Repository)
      (st' : RegistryState), updateRepositoryCredentials env stu q = (.ok rep, st') →
      rep = { emptyRepository with repo := rep.repo } := by
    intro stu q rep st' h
    unfold updateRepositoryCredentials at h
    split at h
    · have hrep := Except.ok.inj (Prod.mk.injEq _ _ _ _ ▸ h).1
      subst hrep
      rfl
    · cases (Prod.mk.injEq _ _ _ _ ▸ h).1
  have hconf : ∀ (st2 : RegistryState) (r : Repository) (up : Bool) (rep : Repository)
      (st' : RegistryState), createRepositoryConflict env st2 r up = (.ok rep, st') →
      rep = { emptyRepository with repo := rep.repo } := by
    intro st2 r up rep st' h
    unfold createRepositoryConflict at h
    cases hg : dbGetRepository st2 r.repo with
    | error ge =>
      simp only [hg] at h
      cases (Prod.mk.injEq _ _ _ _ ▸ h).1
    | ok ex0 =>
      simp only [hg] at h
      by_cases heq : ({ ex0 with connectionState := r.connectionState } = r)
      · rw [if_pos heq] at h
        have hrep := Except.ok.inj (Prod.mk.injEq _ _ _ _ ▸ h).1
        subst hrep
        rfl
      · rw [if_neg heq] at h
        by_cases hup : up = true
        · rw [if_pos hup] at h
          exact hupd _ _ rep st' h
        · rw [if_neg hup] at h
          cases (Prod.mk.injEq _ _ _ _ ▸ h).1
  have hconfc : ∀ (st2 : RegistryState) (r : Repository) (up : Bool) (rep : Repository)
      (st' : RegistryState),
      createRepositoryCredentialsConflict env st2 r up = (.ok rep, st') →
      rep = { emptyRepository with repo := rep.repo } := by
    intro st2 r up rep st' h
    unfold createRepositoryCredentialsConflict at h
    by_cases hq : getRepositoryCredentials st2.creds r.repo = some r
    · rw [if_pos hq] at h
      have hrep := Except.ok.inj (Prod.mk.injEq _ _ _ _ ▸ h).1
      subst hrep
      rfl
    · rw [if_neg hq] at h
      by_cases hup : up = true
      · rw [if_pos hup] at h
        exact hupdc _ _ rep st' h
      · rw [if_neg hup] at h
        cases (Prod.mk.injEq _ _ _ _ ▸ h).1
  refine ⟨?_, ?_, fun q => hupd st q, fun q => hupdc st q⟩
  · intro q rep st' h
    unfold createRepository at h
    by_cases he : env.enforce .create q.repo.repo = true
    · rw [if_pos he] at h
      cases htr : env.testRepo q.repo.repo (repoCredsSource st.creds q.repo)
          q.repo.insecure q.repo.enableLFS with
      | some e =>
        simp only [htr] at h
        cases (Prod.mk.injEq _ _ _ _ ▸ h).1
      | none =>
        simp only [htr] at h
        rcases hdb : dbCreateRepository st (probedRecord q.repo) with ⟨res, st2⟩
        cases res with
        | ok created =>
          simp only [hdb] at h
          have hrep := Except.ok.inj (Prod.mk.injEq _ _ _ _ ▸ h).1
          subst hrep
          rfl
        | error err =>
          simp only [hdb] at h
          by_cases hcode : err.code = .alreadyExists
          · rw [if_pos hcode] at h
            exact hconf _ _ _ rep st' h
          · rw [if_neg hcode] at h
            cases (Prod.mk.injEq _ _ _ _ ▸ h).1
    · rw [if_neg he] at h
      cases (Prod.mk.injEq _ _ _ _ ▸ h).1
  · intro q rep st' h
    unfold createRepositoryCredentials at h
    by_cases he : env.enforce .create q.repo.repo = true
    · rw [if_pos he] at h
      rcases hdb : dbCreateRepositoryCredentials st q.repo with ⟨res, st2⟩
      cases res with
      | ok created =>
        simp only [hdb] at h
        have hrep := Except.ok.inj (Prod.mk.injEq _ _ _ _ ▸ h).1
        subst hrep
        rfl
      | error err =>
        simp only [hdb] at h
        by_cases hcode : err.code = .alreadyExists
        · rw [if_pos hcode] at h
          exact hconfc _ _ _ rep st' h
        · rw [if_neg hcode] at h
          cases (Prod.mk.injEq _ _ _ _ ▸ h).1
    · rw [if_neg he] at h
      cases (Prod.mk.injEq _ _ _ _ ▸ h).1

/-- Witness for C10 at a concrete successful create. -/
theorem mutating_responses_only_url_witness :
    ({ emptyRepository with repo := "u" } : Repository) =
      { emptyRepository with
        repo := ({ emptyRepository with repo := "u" } : Repository).repo } :=
  (mutating_responses_only_url allowEnv emptyRegistry).1
    ⟨{ emptyRepository with repo := "u" }, false⟩
    { emptyRepository with repo := "u" }
    ⟨[("u", { emptyRepository with
        repo := "u"
        connectionState := ⟨.successful, "", none⟩ })], [], []⟩
    (by rfl)

end ArgoCD
